import Mathlib

/-!
Verification of the expression formatter in
`src/contrib/pg_hacker_helper_tools.c` (functions `format_expr_inner` and
`pg_hacker_helper_format_expr`).

The formatter renders an in-memory SQL expression tree to text, resolving
column references against a range table (symbol table).  PostgreSQL-side
collaborators (operator-name lookup, function-name lookup, type output
conversion, attribute-name lookup) live outside this repository; following
the spec they are modelled as injected lookup capabilities: the two name
lookups may fail (absent entry), the type-output conversion and the
per-relation attribute-name mapping are total.

The C function `format_expr_inner` appends text to a `StringInfo` buffer and
only ever appends; we model one invocation by the string it appends for its
subtree.  The early `return` on an out-of-range `varno` therefore appends
the empty string for that node.  `OpExpr` with an empty operand list makes
the C code recurse into a NULL pointer (`get_leftop` returns NULL and
`IsA(NULL, ...)` dereferences it), which is undefined behaviour; the model
returns `none` there, and `some s` whenever the C code runs to completion
having appended `s`.
-/

/-- A range table entry (spec: RelationDescriptor): a display alias together
with the mapping from positional attribute number to attribute name.
The attribute-name mapping stands for PostgreSQL's
`get_rte_attribute_name`, external to this repository; the spec models it
as a total mapping (spec section 3). -/
structure RangeTblEntry where
  aliasname : String
  attnameMap : Int → String

/-- Modelled from the spec: the name-resolution registries of spec section 6,
which are PostgreSQL code outside this repository.  `get_opname` and
`get_func_name` map an id to a display name and may fail (absent entry);
`typeOutput` is the type-output registry producing the textual form of a
value, modelled total. -/
structure Catalog where
  get_opname : Nat → Option String
  get_func_name : Nat → Option String
  typeOutput : Nat → Nat → String

/-- The expression tree node kinds handled by `format_expr_inner`:
`Var` (column reference), `Const`, `OpExpr`, `FuncExpr`, and a catch-all
for every other node tag. -/
inductive Expr where
  | Var (varno : Int) (varattno : Int)
  | Const (consttype : Nat) (constvalue : Nat) (constisnull : Bool)
  | OpExpr (opno : Nat) (args : List Expr)
  | FuncExpr (funcid : Nat) (args : List Expr)
  | Other

/-- `INNER_VAR`: the synthetic varno of the inner tuple slot. -/
def INNER_VAR : Int := -2

/-- `OUTER_VAR`: the synthetic varno of the outer tuple slot. -/
def OUTER_VAR : Int := -3

/-- `INDEX_VAR`: the synthetic varno of the index tuple slot. -/
def INDEX_VAR : Int := -4

/-- `rt_fetch(i, rtable)`: 1-based lookup in the range table,
`list_nth(rtable, i - 1)`.  The C macro assumes the index is in range; out
of range we return a dummy entry (the formatter only calls this after its
range check). -/
def rt_fetch (i : Int) (rtable : List RangeTblEntry) : RangeTblEntry :=
  (rtable[(i - 1).toNat]?).getD ⟨"", fun _ => ""⟩

/-- Modelled from the spec: PostgreSQL's `get_rte_attribute_name` is outside
this repository; spec sections 3 and 6 model it as the relation's total
mapping from positional attribute number to attribute name. -/
def get_rte_attribute_name (rte : RangeTblEntry) (attnum : Int) : String :=
  rte.attnameMap attnum

/-- The C expression `(opname != NULL) ? opname : "(invalid operator)"`. -/
def opnameOf (cat : Catalog) (opno : Nat) : String :=
  match cat.get_opname opno with
  | some nm => nm
  | none => "(invalid operator)"

/-- The C expression `(funcname != NULL) ? funcname : "(invalid function)"`. -/
def funcnameOf (cat : Catalog) (funcid : Nat) : String :=
  match cat.get_func_name funcid with
  | some nm => nm
  | none => "(invalid function)"

mutual

/-- `format_expr_inner` from `pg_hacker_helper_tools.c`: the text this
invocation appends to the buffer for its subtree, or `none` when the C code
hits undefined behaviour (`OpExpr` with no operands recurses into NULL). -/
def format_expr_inner (cat : Catalog) (rtable : List RangeTblEntry) :
    Expr → Option String
  | .Var varno _varattno =>
      if varno = INNER_VAR then some ("INNER" ++ "." ++ "?")
      else if varno = OUTER_VAR then some ("OUTER" ++ "." ++ "?")
      else if varno = INDEX_VAR then some ("INDEX" ++ "." ++ "?")
      else if varno > 0 ∧ varno ≤ (rtable.length : Int) then
        let rte := rt_fetch varno rtable
        some (rte.aliasname ++ "." ++ get_rte_attribute_name rte _varattno)
      else
        some ""
  | .Const consttype constvalue constisnull =>
      if constisnull then some "NULL"
      else some (cat.typeOutput consttype constvalue)
  | .OpExpr opno args =>
      match args with
      | a :: b :: _ => do
          let l ← format_expr_inner cat rtable a
          let r ← format_expr_inner cat rtable b
          pure (l ++ " " ++ opnameOf cat opno ++ " " ++ r)
      | [a] => do
          let l ← format_expr_inner cat rtable a
          pure (opnameOf cat opno ++ " " ++ l)
      | [] => none
  | .FuncExpr funcid args => do
      let argtext ← format_args cat rtable args
      pure (funcnameOf cat funcid ++ "(" ++ argtext ++ ")")
  | .Other => some "unknown expr"

/-- The `foreach` loop of the `FuncExpr` branch: format each argument,
appending a comma after it exactly when `lnext` says another follows. -/
def format_args (cat : Catalog) (rtable : List RangeTblEntry) :
    List Expr → Option String
  | [] => some ""
  | [a] => format_expr_inner cat rtable a
  | a :: b :: rest => do
      let s ← format_expr_inner cat rtable a
      let t ← format_args cat rtable (b :: rest)
      pure (s ++ "," ++ t)

end

/-- `pg_hacker_helper_format_expr`: NULL input returns NULL, otherwise the
string accumulated by `format_expr_inner` starting from an empty buffer.
The outer `Option` is `none` exactly when the C code hits undefined
behaviour. -/
def pg_hacker_helper_format_expr (cat : Catalog) (expr : Option Expr)
    (rtable : List RangeTblEntry) : Option (Option String) :=
  match expr with
  | none => some none
  | some e => (format_expr_inner cat rtable e).map some

/-- `pg_hacker_helper_version`: fixed version integer. -/
def pg_hacker_helper_version : Int := 1

mutual

/-- Well-formedness per the spec data model (section 3): every
`OperatorApplication` in the tree has exactly one or two operands. -/
def wellFormed : Expr → Bool
  | .Var _ _ => true
  | .Const _ _ _ => true
  | .OpExpr _ args => (args.length == 1 || args.length == 2) && wellFormedList args
  | .FuncExpr _ args => wellFormedList args
  | .Other => true

/-- All expressions in the list are well-formed. -/
def wellFormedList : List Expr → Bool
  | [] => true
  | a :: rest => wellFormed a && wellFormedList rest

end

/-- The spec's wording of the argument separator: the formatted arguments in
order, separated by a bare comma with no surrounding spaces. -/
def joinComma : List String → String
  | [] => ""
  | [s] => s
  | s :: t :: rest => s ++ "," ++ joinComma (t :: rest)

/-- A concrete catalog for witnesses: operator id 1 resolves to `+`,
function id 1 resolves to `foo`, every other id is unresolvable, and values
print in decimal. -/
def exCat : Catalog where
  get_opname o := if o = 1 then some "+" else none
  get_func_name f := if f = 1 then some "foo" else none
  typeOutput _ v := toString v

/-- A concrete range table entry for witnesses. -/
def exRte : RangeTblEntry where
  aliasname := "t"
  attnameMap n := "c" ++ toString n

/-- A one-entry range table for witnesses. -/
def exRtable : List RangeTblEntry := [exRte]

theorem format_expr_inner_isSome (cat : Catalog) (rtable : List RangeTblEntry)
    (e : Expr) :
    wellFormed e = true → (format_expr_inner cat rtable e).isSome = true := by
  refine format_expr_inner.induct cat rtable
    (fun e => wellFormed e = true → (format_expr_inner cat rtable e).isSome = true)
    (fun l => wellFormedList l = true → (format_args cat rtable l).isSome = true)
    ?_ ?_ ?_ ?_ ?_ ?_ ?_ ?_ ?_ ?_ ?_ ?_ ?_ ?_ ?_ e
  case _ => intro v _; simp [format_expr_inner]
  case _ => intro v h _; simp [format_expr_inner, h]
  case _ => intro v h1 h2 _; simp [format_expr_inner, h1, h2]
  case _ =>
    intro varno v h1 h2 h3 hin _
    simp [format_expr_inner, h1, h2, h3, hin]
  case _ =>
    intro varno v h1 h2 h3 hout _
    simp [format_expr_inner, h1, h2, h3, hout]
  case _ => intro t v _; simp [format_expr_inner]
  case _ => intro t v bnull h _; simp [format_expr_inner, h]
  case _ =>
    intro opno a b tail iha ihb h
    simp only [wellFormed, Bool.and_eq_true] at h
    obtain ⟨-, hl⟩ := h
    simp only [wellFormedList, Bool.and_eq_true] at hl
    obtain ⟨sa, hsa⟩ := Option.isSome_iff_exists.mp (iha hl.1)
    obtain ⟨sb, hsb⟩ := Option.isSome_iff_exists.mp (ihb hl.2.1)
    simp [format_expr_inner, hsa, hsb]
  case _ =>
    intro opno a iha h
    simp only [wellFormed, Bool.and_eq_true] at h
    obtain ⟨-, hl⟩ := h
    simp only [wellFormedList, Bool.and_eq_true] at hl
    obtain ⟨sa, hsa⟩ := Option.isSome_iff_exists.mp (iha hl.1)
    simp [format_expr_inner, hsa]
  case _ =>
    intro opno h
    simp [wellFormed] at h
  case _ =>
    intro funcid args ih h
    simp only [wellFormed] at h
    obtain ⟨s, hs⟩ := Option.isSome_iff_exists.mp (ih h)
    simp [format_expr_inner, hs]
  case _ => intro _; simp [format_expr_inner]
  case _ => intro _; simp [format_args]
  case _ =>
    intro a iha h
    simp only [wellFormedList, Bool.and_eq_true] at h
    obtain ⟨sa, hsa⟩ := Option.isSome_iff_exists.mp (iha h.1)
    simp [format_args, hsa]
  case _ =>
    intro a b rest iha ihrest h
    simp only [wellFormedList, Bool.and_eq_true] at h
    obtain ⟨sa, hsa⟩ := Option.isSome_iff_exists.mp (iha h.1)
    obtain ⟨t, ht⟩ := Option.isSome_iff_exists.mp
      (ihrest (by simp [wellFormedList, h.2.1, h.2.2]))
    simp [format_args, hsa, ht]

theorem format_args_eq_joinComma (cat : Catalog) (rtable : List RangeTblEntry)
    (args : List Expr) (strs : List String)
    (h : args.mapM (format_expr_inner cat rtable) = some strs) :
    format_args cat rtable args = some (joinComma strs) := by
  induction args generalizing strs with
  | nil =>
    have hstrs : strs = [] := by
      rw [List.mapM_nil, Option.pure_def] at h
      exact (Option.some_inj.mp h).symm
    subst hstrs
    simp [format_args, joinComma]
  | cons a rest ih =>
    rw [List.mapM_cons] at h
    cases hfa : format_expr_inner cat rtable a with
    | none => rw [hfa] at h; simp at h
    | some sa =>
      rw [hfa] at h
      cases hrest : rest.mapM (format_expr_inner cat rtable) with
      | none => rw [hrest] at h; simp at h
      | some tl =>
        rw [hrest] at h
        have hstrs : strs = sa :: tl := by
          simpa using h.symm
        subst hstrs
        cases rest with
        | nil =>
          have htl : tl = [] := by
            rw [List.mapM_nil, Option.pure_def] at hrest
            exact (Option.some_inj.mp hrest).symm
          subst htl
          simp [format_args, joinComma, hfa]
        | cons b rest2 =>
          have hrec := ih tl hrest
          cases tl with
          | nil =>
            rw [List.mapM_cons] at hrest
            cases hfb : format_expr_inner cat rtable b with
            | none => rw [hfb] at hrest; simp at hrest
            | some sb =>
              rw [hfb] at hrest
              cases hr2 : rest2.mapM (format_expr_inner cat rtable) with
              | none => rw [hr2] at hrest; simp at hrest
              | some t2 => rw [hr2] at hrest; simp at hrest
          | cons s0 tl2 =>
            simp [format_args, hfa, hrec, joinComma]

theorem format_opexpr_two (cat : Catalog) (rtable : List RangeTblEntry)
    (opno : Nat) (a b : Expr) (tail : List Expr) (sa sb : String)
    (ha : format_expr_inner cat rtable a = some sa)
    (hb : format_expr_inner cat rtable b = some sb) :
    format_expr_inner cat rtable (Expr.OpExpr opno (a :: b :: tail)) =
      some (sa ++ " " ++ opnameOf cat opno ++ " " ++ sb) := by
  simp [format_expr_inner, ha, hb]

theorem format_opexpr_one (cat : Catalog) (rtable : List RangeTblEntry)
    (opno : Nat) (a : Expr) (sa : String)
    (ha : format_expr_inner cat rtable a = some sa) :
    format_expr_inner cat rtable (Expr.OpExpr opno [a]) =
      some (opnameOf cat opno ++ " " ++ sa) := by
  simp [format_expr_inner, ha]

/-- C1 counterexample: a tree whose left operand is a ColumnRef with
relation index 5 against an empty symbol table.  The claim says the
returned string excludes any text for that node and its would-be siblings
(nothing after the accumulated prefix, here the empty string), but the code
formats the sibling: the call returns " + NULL", which is not empty. -/
theorem claim_C1_counterexample :
    pg_hacker_helper_format_expr exCat
        (some (Expr.OpExpr 1 [Expr.Var 5 1, Expr.Const 0 0 true])) [] =
      some (some " + NULL") ∧
    (" + NULL" : String) ≠ "" := by
  constructor
  · simp [pg_hacker_helper_format_expr, format_expr_inner, exCat, opnameOf,
      INNER_VAR, OUTER_VAR, INDEX_VAR]
  · decide

/-- C1 (amended): for a ColumnRef whose relationIndex is outside
[1, len(symbols)] (and is none of the special slots), the call returns
without raising and the offending node contributes no text of its own, but
formatting of the remainder of the call continues: a sibling operand is
still formatted and its text appears after the operator. -/
theorem claim_C1_amended (cat : Catalog) (rtable : List RangeTblEntry)
    (i a : Int) (opno : Nat) (b : Expr) (sb : String)
    (hinner : i ≠ INNER_VAR) (houter : i ≠ OUTER_VAR) (hindex : i ≠ INDEX_VAR)
    (hout : ¬(i > 0 ∧ i ≤ (rtable.length : Int)))
    (hb : format_expr_inner cat rtable b = some sb) :
    format_expr_inner cat rtable (Expr.Var i a) = some "" ∧
    format_expr_inner cat rtable (Expr.OpExpr opno [Expr.Var i a, b]) =
      some ("" ++ " " ++ opnameOf cat opno ++ " " ++ sb) := by
  have hvar : format_expr_inner cat rtable (Expr.Var i a) = some "" := by
    simp only [format_expr_inner]
    rw [if_neg hinner, if_neg houter, if_neg hindex, if_neg hout]
  exact ⟨hvar, format_opexpr_two cat rtable opno _ b [] "" sb hvar hb⟩

/-- C1 witness: relation index 5 against the empty symbol table, sibling a
NULL constant, operator id 1. -/
theorem claim_C1_amended_witness :
    ((5 : Int) ≠ INNER_VAR ∧ (5 : Int) ≠ OUTER_VAR ∧ (5 : Int) ≠ INDEX_VAR ∧
      ¬((5 : Int) > 0 ∧ (5 : Int) ≤ (([] : List RangeTblEntry).length : Int)) ∧
      format_expr_inner exCat [] (Expr.Const 0 0 true) = some "NULL") ∧
    format_expr_inner exCat [] (Expr.Var 5 1) = some "" ∧
    format_expr_inner exCat [] (Expr.OpExpr 1 [Expr.Var 5 1, Expr.Const 0 0 true]) =
      some ("" ++ " " ++ opnameOf exCat 1 ++ " " ++ "NULL") :=
  ⟨⟨by decide, by decide, by decide, by decide, by simp [format_expr_inner]⟩,
   claim_C1_amended exCat [] 5 1 1 (Expr.Const 0 0 true) "NULL"
     (by decide) (by decide) (by decide) (by decide) (by simp [format_expr_inner])⟩

/-- C2: for every well-formed expression node (spec data model: every
operator application has one or two operands) and every symbol table, the
format call never aborts and never raises: it runs to completion and
returns a string; unresolvable operator and function ids, out-of-range
column references, unsupported node kinds, and any attribute number on an
in-range ColumnRef all resolve to text output. -/
theorem claim_C2 (cat : Catalog) (rtable : List RangeTblEntry) (e : Expr)
    (h : wellFormed e = true) :
    ∃ s : String, pg_hacker_helper_format_expr cat (some e) rtable = some (some s) := by
  obtain ⟨s, hs⟩ := Option.isSome_iff_exists.mp (format_expr_inner_isSome cat rtable e h)
  exact ⟨s, by simp [pg_hacker_helper_format_expr, hs]⟩

/-- C2 witness: an operator application with an unresolvable operator id,
an out-of-range column reference and an unsupported node kind. -/
theorem claim_C2_witness :
    wellFormed (Expr.OpExpr 2 [Expr.Var 9 1, Expr.Other]) = true ∧
    ∃ s : String, pg_hacker_helper_format_expr exCat
      (some (Expr.OpExpr 2 [Expr.Var 9 1, Expr.Other])) exRtable = some (some s) :=
  ⟨by simp [wellFormed, wellFormedList],
   claim_C2 exCat exRtable (Expr.OpExpr 2 [Expr.Var 9 1, Expr.Other])
     (by simp [wellFormed, wellFormedList])⟩

/-- C3: the format call returns NULL if and only if the input node is NULL;
for NULL it returns NULL with no error, and for every non-NULL well-formed
node and every symbol table it returns a (possibly empty) string and never
an error value. -/
theorem claim_C3 (cat : Catalog) (rtable : List RangeTblEntry) (expr : Option Expr)
    (h : ∀ e ∈ expr, wellFormed e = true) :
    (expr = none → pg_hacker_helper_format_expr cat expr rtable = some none) ∧
    (pg_hacker_helper_format_expr cat expr rtable = some none → expr = none) ∧
    (∀ e, expr = some e →
      ∃ s : String, pg_hacker_helper_format_expr cat expr rtable = some (some s)) := by
  refine ⟨?_, ?_, ?_⟩
  · rintro rfl; rfl
  · intro hres
    cases expr with
    | none => rfl
    | some e =>
      exfalso
      simp only [pg_hacker_helper_format_expr] at hres
      cases hfe : format_expr_inner cat rtable e with
      | none => rw [hfe] at hres; simp at hres
      | some s => rw [hfe] at hres; simp at hres
  · rintro e rfl
    obtain ⟨s, hs⟩ := Option.isSome_iff_exists.mp
      (format_expr_inner_isSome cat rtable e (h e rfl))
    exact ⟨s, by simp [pg_hacker_helper_format_expr, hs]⟩

/-- C3 witness: the unsupported-kind node. -/
theorem claim_C3_witness :
    (∀ e ∈ (some Expr.Other : Option Expr), wellFormed e = true) ∧
    (((some Expr.Other : Option Expr) = none →
       pg_hacker_helper_format_expr exCat (some Expr.Other) exRtable = some none) ∧
     (pg_hacker_helper_format_expr exCat (some Expr.Other) exRtable = some none →
       (some Expr.Other : Option Expr) = none) ∧
     (∀ e, (some Expr.Other : Option Expr) = some e →
       ∃ s : String, pg_hacker_helper_format_expr exCat (some Expr.Other) exRtable =
         some (some s))) :=
  ⟨by simp [wellFormed],
   claim_C3 exCat exRtable (some Expr.Other) (by simp [wellFormed])⟩

/-- C4: for every ColumnRef with relationIndex i satisfying
1 ≤ i ≤ len(symbols), formatting that node emits exactly the i-th
relation's display alias, a dot, and the attribute name resolved from the
attribute number. -/
theorem claim_C4 (cat : Catalog) (rtable : List RangeTblEntry) (i a : Int)
    (rte : RangeTblEntry) (h1 : 1 ≤ i)
    (hrte : rtable[(i - 1).toNat]? = some rte) :
    format_expr_inner cat rtable (Expr.Var i a) =
      some (rte.aliasname ++ "." ++ get_rte_attribute_name rte a) := by
  have hlt : (i - 1).toNat < rtable.length := by
    by_contra hge
    rw [List.getElem?_eq_none (Nat.le_of_not_lt hge)] at hrte
    exact Option.noConfusion hrte
  have hle : i ≤ (rtable.length : Int) := by omega
  simp only [format_expr_inner]
  rw [if_neg (by simp only [INNER_VAR]; omega),
      if_neg (by simp only [OUTER_VAR]; omega),
      if_neg (by simp only [INDEX_VAR]; omega),
      if_pos ⟨by omega, hle⟩]
  simp only [rt_fetch, hrte, Option.getD_some]

/-- C4 witness: index 1 into the one-entry symbol table. -/
theorem claim_C4_witness :
    (1 ≤ (1 : Int) ∧ exRtable[((1 : Int) - 1).toNat]? = some exRte) ∧
    format_expr_inner exCat exRtable (Expr.Var 1 2) =
      some (exRte.aliasname ++ "." ++ get_rte_attribute_name exRte 2) :=
  ⟨⟨by decide, rfl⟩, claim_C4 exCat exRtable 1 2 exRte (by decide) rfl⟩

/-- C5: for every binary OperatorApplication with operands a and b, the
emitted text is format(a), one space, the operator's display name, one
space, format(b); the name is the resolved display name when the id
resolves and the literal "(invalid operator)" when it does not, with the
same surrounding spaces in both cases. -/
theorem claim_C5 (cat : Catalog) (rtable : List RangeTblEntry) (opno : Nat)
    (a b : Expr) (sa sb : String)
    (ha : format_expr_inner cat rtable a = some sa)
    (hb : format_expr_inner cat rtable b = some sb) :
    format_expr_inner cat rtable (Expr.OpExpr opno [a, b]) =
      some (sa ++ " " ++ opnameOf cat opno ++ " " ++ sb) ∧
    (∀ nm, cat.get_opname opno = some nm → opnameOf cat opno = nm) ∧
    (cat.get_opname opno = none → opnameOf cat opno = "(invalid operator)") := by
  refine ⟨format_opexpr_two cat rtable opno a b [] sa sb ha hb, ?_, ?_⟩
  · intro nm hnm; simp [opnameOf, hnm]
  · intro hnone; simp [opnameOf, hnone]

/-- C5 witness: NULL + NULL with resolvable operator id 1. -/
theorem claim_C5_witness :
    (format_expr_inner exCat exRtable (Expr.Const 0 7 true) = some "NULL" ∧
     format_expr_inner exCat exRtable (Expr.Const 0 8 true) = some "NULL") ∧
    format_expr_inner exCat exRtable
        (Expr.OpExpr 1 [Expr.Const 0 7 true, Expr.Const 0 8 true]) =
      some ("NULL" ++ " " ++ opnameOf exCat 1 ++ " " ++ "NULL") :=
  ⟨⟨by simp [format_expr_inner], by simp [format_expr_inner]⟩,
   (claim_C5 exCat exRtable 1 (Expr.Const 0 7 true) (Expr.Const 0 8 true) "NULL" "NULL"
     (by simp [format_expr_inner]) (by simp [format_expr_inner])).1⟩

/-- C6: for every FunctionCall, the emitted text is the resolved function
name (or "(invalid function)" when the id is unresolvable) followed by an
opening parenthesis, the formatted arguments in order separated by a bare
comma with no surrounding spaces, and a closing parenthesis; zero arguments
yields name followed by "()". -/
theorem claim_C6 (cat : Catalog) (rtable : List RangeTblEntry) (funcid : Nat)
    (args : List Expr) (strs : List String)
    (h : args.mapM (format_expr_inner cat rtable) = some strs) :
    format_expr_inner cat rtable (Expr.FuncExpr funcid args) =
      some (funcnameOf cat funcid ++ "(" ++ joinComma strs ++ ")") ∧
    (∀ nm, cat.get_func_name funcid = some nm → funcnameOf cat funcid = nm) ∧
    (cat.get_func_name funcid = none → funcnameOf cat funcid = "(invalid function)") ∧
    format_expr_inner cat rtable (Expr.FuncExpr funcid []) =
      some (funcnameOf cat funcid ++ "()") := by
  refine ⟨?_, ?_, ?_, ?_⟩
  · have hargs := format_args_eq_joinComma cat rtable args strs h
    simp [format_expr_inner, hargs]
  · intro nm hnm; simp [funcnameOf, hnm]
  · intro hnone; simp [funcnameOf, hnone]
  · have hlit : ("(" : String) ++ ")" = "()" := rfl
    simp [format_expr_inner, format_args, String.append_assoc, hlit]

/-- C6 witness: foo(NULL,NULL) with resolvable function id 1. -/
theorem claim_C6_witness :
    [Expr.Const 0 7 true, Expr.Const 0 8 true].mapM (format_expr_inner exCat exRtable) =
      some ["NULL", "NULL"] ∧
    format_expr_inner exCat exRtable
        (Expr.FuncExpr 1 [Expr.Const 0 7 true, Expr.Const 0 8 true]) =
      some (funcnameOf exCat 1 ++ "(" ++ joinComma ["NULL", "NULL"] ++ ")") :=
  ⟨by simp only [List.mapM_cons, List.mapM_nil]; simp [format_expr_inner],
   (claim_C6 exCat exRtable 1 [Expr.Const 0 7 true, Expr.Const 0 8 true] ["NULL", "NULL"]
     (by simp only [List.mapM_cons, List.mapM_nil]; simp [format_expr_inner])).1⟩

/-- C7: every Constant node with isNull true formats as exactly "NULL",
for every type id and every value. -/
theorem claim_C7 (cat : Catalog) (rtable : List RangeTblEntry)
    (consttype constvalue : Nat) :
    format_expr_inner cat rtable (Expr.Const consttype constvalue true) =
      some "NULL" := by
  simp [format_expr_inner]

/-- C8: a ColumnRef whose slot is the special slot INNER, OUTER or INDEX
formats as exactly "INNER.?", "OUTER.?" or "INDEX.?" respectively,
independent of the symbol table and of the attribute number. -/
theorem claim_C8 (cat : Catalog) (rtable : List RangeTblEntry) (a : Int) :
    format_expr_inner cat rtable (Expr.Var INNER_VAR a) = some "INNER.?" ∧
    format_expr_inner cat rtable (Expr.Var OUTER_VAR a) = some "OUTER.?" ∧
    format_expr_inner cat rtable (Expr.Var INDEX_VAR a) = some "INDEX.?" := by
  refine ⟨?_, ?_, ?_⟩ <;>
    simp [format_expr_inner, INNER_VAR, OUTER_VAR, INDEX_VAR]

/-- C9: every OperatorApplication with exactly one operand formats as the
operator's display name (or "(invalid operator)" when unresolvable), one
space, then the formatted operand. -/
theorem claim_C9 (cat : Catalog) (rtable : List RangeTblEntry) (opno : Nat)
    (a : Expr) (sa : String)
    (ha : format_expr_inner cat rtable a = some sa) :
    format_expr_inner cat rtable (Expr.OpExpr opno [a]) =
      some (opnameOf cat opno ++ " " ++ sa) ∧
    (∀ nm, cat.get_opname opno = some nm → opnameOf cat opno = nm) ∧
    (cat.get_opname opno = none → opnameOf cat opno = "(invalid operator)") := by
  refine ⟨format_opexpr_one cat rtable opno a sa ha, ?_, ?_⟩
  · intro nm hnm; simp [opnameOf, hnm]
  · intro hnone; simp [opnameOf, hnone]

/-- C9 witness: unary application of the unresolvable operator id 2 to a
NULL constant. -/
theorem claim_C9_witness :
    format_expr_inner exCat exRtable (Expr.Const 0 7 true) = some "NULL" ∧
    format_expr_inner exCat exRtable (Expr.OpExpr 2 [Expr.Const 0 7 true]) =
      some (opnameOf exCat 2 ++ " " ++ "NULL") :=
  ⟨by simp [format_expr_inner],
   (claim_C9 exCat exRtable 2 (Expr.Const 0 7 true) "NULL"
     (by simp [format_expr_inner])).1⟩

/-- C10: an OperatorApplication with more than two operands formats exactly
as the binary infix form over the first two operands; every operand after
the second is ignored and contributes no text. -/
theorem claim_C10 (cat : Catalog) (rtable : List RangeTblEntry) (opno : Nat)
    (a b c : Expr) (rest : List Expr) (sa sb : String)
    (ha : format_expr_inner cat rtable a = some sa)
    (hb : format_expr_inner cat rtable b = some sb) :
    format_expr_inner cat rtable (Expr.OpExpr opno (a :: b :: c :: rest)) =
      some (sa ++ " " ++ opnameOf cat opno ++ " " ++ sb) :=
  format_opexpr_two cat rtable opno a b (c :: rest) sa sb ha hb

/-- C10 witness: three NULL operands under operator id 1; the third
contributes nothing. -/
theorem claim_C10_witness :
    (format_expr_inner exCat exRtable (Expr.Const 0 7 true) = some "NULL" ∧
     format_expr_inner exCat exRtable (Expr.Const 0 8 true) = some "NULL") ∧
    format_expr_inner exCat exRtable
        (Expr.OpExpr 1 [Expr.Const 0 7 true, Expr.Const 0 8 true, Expr.Const 0 9 true]) =
      some ("NULL" ++ " " ++ opnameOf exCat 1 ++ " " ++ "NULL") :=
  ⟨⟨by simp [format_expr_inner], by simp [format_expr_inner]⟩,
   claim_C10 exCat exRtable 1 (Expr.Const 0 7 true) (Expr.Const 0 8 true)
     (Expr.Const 0 9 true) [] "NULL" "NULL"
     (by simp [format_expr_inner]) (by simp [format_expr_inner])⟩
